import Mathlib

/-!
Verification of the regnbue-bridge ordered task-fetch pipeline.

Shallow embedding of `src/block_submitter/task_fetcher.rs` and
`src/bin/tele_out.rs`:
  * JSON documents (`serde_json::Value`) are modelled by the inductive `Json`,
    with numbers as integers (the claims under study involve only integral
    values).
  * Machine integers are modelled as `Int`/`Nat` with explicit bounds:
    `i64` values live in `Int`, `U256` values in `Nat`; `as u16` truncation
    is `% 65536`; conversions that can panic in Rust return `Option`
    (`none` = panic), while Rust `Result` is `Except String`.
  * The `sqlx` queries of `fetch_latest` are modelled over an explicit
    database value `Db` holding the `task` and `l2_block` rows; the SQL
    in the source is translated clause by clause.
  * The `serde_json::de::from_slice::<Vec<U256>>` parses of `public_input`
    and `proof` are external library calls; they are abstracted as a
    parameter `parse : List Nat → Except String (List Nat)` from raw bytes
    to the parsed word list.
-/

deriving instance DecidableEq for Except

namespace RegnbueBridge

/-- Model of `serde_json::Value`.  Numbers are modelled as integers
(every claim under study involves only integral JSON numbers). -/
inductive Json where
  | null : Json
  | bool (b : Bool) : Json
  | num (n : Int) : Json
  | str (s : String) : Json
  | arr (xs : List Json) : Json
  | obj (fields : List (String × Json)) : Json

/-- Model of `serde_json::Value::get(key)`: on an object, look the key up; on any
other value, `None`. -/
def jsonGet (v : Json) (key : String) : Option Json :=
  match v with
  | .obj fields => fields.lookup key
  | _ => none

/-- Model of `serde_json::Value::as_array`. -/
def jsonAsArray : Json → Option (List Json)
  | .arr xs => some xs
  | _ => none

/-- Model of `serde_json::Value::as_u64`: `Some` exactly when the number is an
integer representable as an unsigned 64-bit value. -/
def jsonAsU64 : Json → Option Nat
  | .num n => if 0 ≤ n ∧ n < 2 ^ 64 then some n.toNat else none
  | _ => none

/-- Rust `v as u16` on a `u64` value: truncation modulo `2 ^ 16`. -/
def u16OfU64 (n : Nat) : Nat := n % 65536

/-- Model of `u16::to_be_bytes`: the two big-endian bytes of a value below 65536. -/
def be2 (n : Nat) : List Nat := [n / 256, n % 256]

/-- Model of `U256::from(x)` for `x : i64` (primitive-types): panics on a negative
value, hence `none` models the panic. -/
def u256FromI64 (x : Int) : Option Nat :=
  if 0 ≤ x then some x.toNat else none

/-- Model of `U256::as_u64`: panics (`none`) when the value does not fit in 64 bits. -/
def u256AsU64 (n : Nat) : Option Nat :=
  if n < 2 ^ 64 then some n else none

/-- Rust `v as i64` on a `u64` value: two-complement reinterpretation. -/
def u64AsI64 (v : Nat) : Int :=
  if v < 2 ^ 63 then (v : Int) else (v : Int) - 2 ^ 64

/-- The row type fetched by the queries in `task_fetcher.rs`
(struct `Task`): `block_id` is an `i64`, the three byte columns are raw
bytes, `aux_data` is an optional JSON document. -/
structure Task where
  block_id : Int
  public_input : List Nat
  proof : List Nat
  public_data : List Nat
  aux_data : Option Json

/-- The payload struct `SubmitBlockArgs`: `block_id` is a `U256` (a natural below `2 ^ 256`;
the bound is immaterial to the claims), the U256 vectors are word lists,
the byte payloads are byte lists. -/
structure SubmitBlockArgs where
  block_id : Nat
  public_inputs : List Nat
  serialized_proof : List Nat
  public_data : List Nat
  deposit_aux : List Nat
deriving DecidableEq, Repr

/-- The union `ContractCall` (from `block_submitter/types.rs`): the single variant
used by this core. -/
inductive ContractCall where
  | SubmitBlock (args : SubmitBlockArgs) : ContractCall
deriving DecidableEq, Repr

/-- The `for i in val_arr` encoding loop of `TryFrom<Task>`
(task_fetcher.rs lines 48-53): each element must answer `as_u64`, is then
truncated `as u16` and appended as its two big-endian bytes; the first
failing element aborts with an error. -/
def encodeDepositArr : List Json → Except String (List Nat)
  | [] => .ok []
  | i :: rest =>
    match jsonAsU64 i with
    | none => .error "malform in deposit arr"
    | some ni =>
      match encodeDepositArr rest with
      | .error e => .error e
      | .ok tail => .ok (be2 (u16OfU64 ni) ++ tail)

/-- The `deposit_aux` computation of `TryFrom<Task>` (lines 40-56):
absent document gives the empty byte string; otherwise the `deposit`
field must exist and be an array, which is encoded by the loop. -/
def depositAux : Option Json → Except String (List Nat)
  | none => .ok []
  | some val =>
    match jsonGet val "deposit" with
    | none => .error "no deposit field"
    | some d =>
      match jsonAsArray d with
      | none => .error "malform in deposit"
      | some val_arr => encodeDepositArr val_arr

/-- The transform `TryFrom<Task> for SubmitBlockArgs` (lines 35-65), parameterised by
the external `serde_json` parse of the `public_input` and `proof` byte
columns.  The outer `Option` models panics (`U256::from` on a negative
`block_id`); the `Except` models the Rust `Result`.  The evaluation
order matches the source: `public_input` parse, `proof` parse, `U256`
conversion, deposit encoding. -/
def tryFrom (parse : List Nat → Except String (List Nat)) (t : Task) :
    Option (Except String SubmitBlockArgs) :=
  match parse t.public_input with
  | .error e => some (.error e)
  | .ok public_inputs =>
    match parse t.proof with
    | .error e => some (.error e)
    | .ok serialized_proof =>
      match u256FromI64 t.block_id with
      | none => none
      | some block_id =>
        match depositAux t.aux_data with
        | .error e => some (.error e)
        | .ok deposit_aux =>
          some (.ok { block_id := block_id, public_inputs := public_inputs,
                      serialized_proof := serialized_proof,
                      public_data := t.public_data,
                      deposit_aux := deposit_aux })

/-- One row of the `task` table, restricted to the columns the queries of
`task_fetcher.rs` read: `block_id` (an `i64`), `status`, and the two byte
columns `public_input` and `proof`. -/
structure TaskRow where
  block_id : Int
  status : String
  public_input : List Nat
  proof : List Nat

/-- One row of the `l2_block` table, restricted to the columns read:
`block_id`, `status`, `raw_public_data`, `public_data_aux`. -/
structure L2BlockRow where
  block_id : Int
  status : String
  raw_public_data : List Nat
  public_data_aux : Option Json

/-- The database state visible to `fetch_latest`. -/
structure Db where
  tasks : List TaskRow
  l2_blocks : List L2BlockRow

/-- Column values of a bigint column fit in a signed 64-bit word; only the
upper bound matters to the claims. -/
def Db.wf (db : Db) : Prop :=
  ∀ t ∈ db.tasks, t.block_id < 2 ^ 63

/-- The largest `i64`, used by the `coalesce` in `fetch_latest`. -/
def i64Max : Int := 9223372036854775807

/-- Minimum of a list of integers (the `order by block_id limit 1` of the
ceiling subquery). -/
def listMin : List Int → Option Int
  | [] => none
  | x :: xs => some (xs.foldl min x)

/-- The ceiling subquery of `fetch_latest` (lines 111-115): coalesce of
the least block_id of a task whose status differs from proved, with the
largest i64 as default. -/
def ceiling (db : Db) : Int :=
  (listMin ((db.tasks.filter (fun t => t.status ≠ "proved")).map
    (fun t => t.block_id))).getD i64Max

/-- The `where` clause of `fetch_latest` for a joined pair of rows
(lines 110-118): join on `block_id`, below the ceiling, above the bound
parameter, task `proved`, block `uncommited` (spelling from the source). -/
def eligibleB (db : Db) (start : Int) (t : TaskRow) (b : L2BlockRow) : Bool :=
  (t.block_id == b.block_id) && decide (t.block_id < ceiling db)
    && decide (start < t.block_id) && (t.status == "proved")
    && (b.status == "uncommited")

/-- All joined pairs satisfying the `where` clause of `fetch_latest`. -/
def candidatePairs (db : Db) (start : Int) : List (TaskRow × L2BlockRow) :=
  db.tasks.flatMap (fun t =>
    (db.l2_blocks.filter (fun b => eligibleB db start t b)).map (fun b => (t, b)))

/-- Choose the joined pair with the smaller task `block_id`, keeping the
earlier on ties. -/
def pickSmaller (best q : TaskRow × L2BlockRow) : TaskRow × L2BlockRow :=
  if q.1.block_id < best.1.block_id then q else best

/-- The clause `order by t.block_id limit 1`: the pair with the least `block_id`
(ids are unique in both tables, so ties do not arise). -/
def pickMinPair : List (TaskRow × L2BlockRow) → Option (TaskRow × L2BlockRow)
  | [] => none
  | p :: ps => some (ps.foldl pickSmaller p)

/-- Assemble the selected columns into the fetched `Task` row. -/
def rowToTask (t : TaskRow) (b : L2BlockRow) : Task :=
  { block_id := t.block_id, public_input := t.public_input, proof := t.proof,
    public_data := b.raw_public_data, aux_data := b.public_data_aux }

/-- The row (if any) returned by the SQL of `fetch_latest` when the bound
parameter is `start`. -/
def selectLatestRow (db : Db) (start : Int) : Option Task :=
  (pickMinPair (candidatePairs db start)).map (fun p => rowToTask p.1 p.2)

/-- The query wrapper `SubmitBlockArgs::fetch_latest` (lines 97-131): run the query with the
bound parameter `start_id.unwrap_or(-1)` and transform the row, if any.
Outer `Option` = panic, `Except` = the Rust `Result`. -/
def fetch_latest (parse : List Nat → Except String (List Nat))
    (start_id : Option Int) (db : Db) :
    Option (Except String (Option SubmitBlockArgs)) :=
  match selectLatestRow db (start_id.getD (-1)) with
  | none => some (.ok none)
  | some task =>
    match tryFrom parse task with
    | none => none
    | some (.error e) => some (.error e)
    | some (.ok args) => some (.ok (some args))

/-- The cycle `TaskFetcher::run_inner` (lines 154-165): fetch the latest
eligible block; when a row was transformed, compute
`last_id = args.block_id.as_u64() as i64`, try to send on the channel
(`sendOk` says whether `try_send` succeeds), and only after a successful
send record `last_block_id = Some(last_id)`.  The result carries the
cursor value after the cycle alongside the `Result` of the cycle; the
outer `Option` models a panic. -/
def run_inner (parse : List Nat → Except String (List Nat)) (sendOk : Bool)
    (db : Db) (last_block_id : Option Int) :
    Option (Option Int × Except String (Option ContractCall)) :=
  match fetch_latest parse last_block_id db with
  | none => none
  | some (.error e) => some (last_block_id, .error e)
  | some (.ok none) => some (last_block_id, .ok none)
  | some (.ok (some args)) =>
    match u256AsU64 args.block_id with
    | none => none
    | some v =>
      if sendOk then
        some (some (u64AsI64 v), .ok (some (.SubmitBlock args)))
      else
        some (last_block_id, .error "sending on a full channel")

/-- Which of the three `tokio::select!` branches of `main`
(src/bin/tele_out.rs lines 34-44) completes first. -/
inductive SelectWinner where
  | fetcherReturned : SelectWinner
  | ethSenderReturned : SelectWinner
  | stopSignal : SelectWinner
deriving DecidableEq, Repr

/-- The observable fate of the process after the select. -/
inductive ProcessOutcome where
  | panicked (msg : String) : ProcessOutcome
  | exitedOk : ProcessOutcome
deriving DecidableEq, Repr

/-- The arms of the `tokio::select!` in `main`: a returning fetcher or
sender loop panics with its message; the stop signal logs and lets `main`
return `Ok(())`. -/
def mainSelect : SelectWinner → ProcessOutcome
  | .fetcherReturned =>
    .panicked "Tele_out task fetcher actor is not supposed to finish its execution"
  | .ethSenderReturned =>
    .panicked "Ethereum Sender actor is not supposed to finish its execution"
  | .stopSignal => .exitedOk

/-! Concrete fixtures for the scenario computations. -/

/-- The UTF-8 bytes of the string of an empty JSON array. -/
def emptyJsonArr : List Nat := [91, 93]

/-- A concrete instance of the abstract `serde_json` parse: it recognises
exactly the serialized empty `Vec<U256>` (the bytes of an empty JSON
array) and rejects everything else.  All fixture rows carry that byte
string in their `public_input` and `proof` columns. -/
def parseE (bs : List Nat) : Except String (List Nat) :=
  if bs == emptyJsonArr then .ok [] else .error "invalid json"

/-- A `task` row with the given id and status and empty payloads. -/
def mkTaskRow (i : Int) (st : String) : TaskRow :=
  { block_id := i, status := st, public_input := emptyJsonArr, proof := emptyJsonArr }

/-- An `l2_block` row with the given id and status, no public data and no
aux document. -/
def mkL2Row (i : Int) (st : String) : L2BlockRow :=
  { block_id := i, status := st, raw_public_data := [], public_data_aux := none }

/-- The `SubmitBlockArgs` produced from `mkTaskRow i _` joined with
`mkL2Row i _` (no aux document, empty payloads). -/
def mkArgs (i : Nat) : SubmitBlockArgs :=
  { block_id := i, public_inputs := [], serialized_proof := [],
    public_data := [], deposit_aux := [] }

/-- Scenario A database: proof rows `proved` for ids 1, 2, 4; the task of
id 3 exists but its proof is not done (status `proving`); l2 block rows
`uncommited` for ids 1, 2, 3, 4. -/
def scenarioADb : Db :=
  { tasks := [mkTaskRow 1 "proved", mkTaskRow 2 "proved",
              mkTaskRow 3 "proving", mkTaskRow 4 "proved"],
    l2_blocks := [mkL2Row 1 "uncommited", mkL2Row 2 "uncommited",
                  mkL2Row 3 "uncommited", mkL2Row 4 "uncommited"] }

/-- The aux document of scenario D: deposit list `[70000]`. -/
def auxDoc70000 : Json := .obj [("deposit", .arr [.num 70000])]

/-- The fetched row of scenario D: block 5, well-formed payloads, aux
document with the out-of-16-bit-range deposit entry 70000. -/
def task70000 : Task :=
  { block_id := 5, public_input := emptyJsonArr, proof := emptyJsonArr,
    public_data := [], aux_data := some auxDoc70000 }

/-- An aux document whose deposit entry is not a non-negative 64-bit
integer. -/
def auxDocNeg : Json := .obj [("deposit", .arr [.num (-1)])]

/-- A database whose single eligible block carries `auxDocNeg`. -/
def dbBadAux : Db :=
  { tasks := [mkTaskRow 7 "proved"],
    l2_blocks := [{ block_id := 7, status := "uncommited",
                    raw_public_data := [], public_data_aux := some auxDocNeg }] }

/-- A database whose single block has the representable identifier `-1`,
is `proved` and `uncommited`, with no unproven task anywhere. -/
def dbNegId : Db :=
  { tasks := [mkTaskRow (-1) "proved"],
    l2_blocks := [mkL2Row (-1) "uncommited"] }

-- scratch checks
example : run_inner parseE true scenarioADb none =
    some (some 1, .ok (some (.SubmitBlock (mkArgs 1)))) := by decide
example : run_inner parseE true scenarioADb (some 1) =
    some (some 2, .ok (some (.SubmitBlock (mkArgs 2)))) := by decide
example : run_inner parseE true scenarioADb (some 2) =
    some (some 2, .ok none) := by decide
example : tryFrom parseE task70000 =
    some (.ok { block_id := 5, public_inputs := [], serialized_proof := [],
                public_data := [], deposit_aux := [17, 112] }) := by decide
example : run_inner parseE false scenarioADb none =
    some (none, .error "sending on a full channel") := by decide
example : fetch_latest parseE none dbNegId = some (.ok none) := by decide
example : depositAux (some (.obj [("deposit",
    .arr [.num 1, .num 65535, .num 0])])) = .ok [0, 1, 255, 255, 0, 0] := by decide

/-! Helper lemmas about the selection. -/

theorem foldl_min_le_init (l : List Int) (a : Int) : l.foldl min a ≤ a := by
  induction l generalizing a with
  | nil => exact le_refl a
  | cons x xs ih =>
    simp only [List.foldl_cons]
    exact le_trans (ih (min a x)) (min_le_left a x)

theorem foldl_min_le_mem {x : Int} {l : List Int} (a : Int) (hx : x ∈ l) :
    l.foldl min a ≤ x := by
  induction l generalizing a with
  | nil => cases hx
  | cons y ys ih =>
    simp only [List.foldl_cons]
    rcases List.mem_cons.mp hx with h | h
    · subst h
      exact le_trans (foldl_min_le_init ys (min a x)) (min_le_right a x)
    · exact ih (min a y) h

theorem listMin_le {x : Int} {l : List Int} (hx : x ∈ l) :
    ∃ m, listMin l = some m ∧ m ≤ x := by
  cases l with
  | nil => cases hx
  | cons y ys =>
    refine ⟨ys.foldl min y, rfl, ?_⟩
    rcases List.mem_cons.mp hx with h | h
    · subst h
      exact foldl_min_le_init ys x
    · exact foldl_min_le_mem y h

theorem ceiling_le {db : Db} {t : TaskRow} (ht : t ∈ db.tasks)
    (hs : t.status ≠ "proved") : ceiling db ≤ t.block_id := by
  have hmem : t.block_id ∈
      (db.tasks.filter (fun t => t.status ≠ "proved")).map (fun t => t.block_id) :=
    List.mem_map_of_mem _ (List.mem_filter.mpr ⟨ht, by simp [hs]⟩)
  obtain ⟨m, hm, hle⟩ := listMin_le hmem
  unfold ceiling
  rw [hm]
  exact hle

theorem foldl_pick_mem (l : List (TaskRow × L2BlockRow)) (a : TaskRow × L2BlockRow) :
    l.foldl pickSmaller a ∈ a :: l := by
  induction l generalizing a with
  | nil => exact List.mem_cons_self a []
  | cons y ys ih =>
    simp only [List.foldl_cons]
    rcases List.mem_cons.mp (ih (pickSmaller a y)) with h | h
    · rw [h]
      unfold pickSmaller
      by_cases hc : y.1.block_id < a.1.block_id
      · rw [if_pos hc]
        exact List.mem_cons_of_mem a (List.mem_cons_self y ys)
      · rw [if_neg hc]
        exact List.mem_cons_self a (y :: ys)
    · exact List.mem_cons_of_mem a (List.mem_cons_of_mem y h)

theorem foldl_pick_le_init (l : List (TaskRow × L2BlockRow)) (a : TaskRow × L2BlockRow) :
    (l.foldl pickSmaller a).1.block_id ≤ a.1.block_id := by
  induction l generalizing a with
  | nil => exact le_refl _
  | cons y ys ih =>
    simp only [List.foldl_cons]
    refine le_trans (ih (pickSmaller a y)) ?_
    unfold pickSmaller
    by_cases hc : y.1.block_id < a.1.block_id
    · rw [if_pos hc]
      exact le_of_lt hc
    · rw [if_neg hc]

theorem foldl_pick_le_mem {q : TaskRow × L2BlockRow} {l : List (TaskRow × L2BlockRow)}
    (a : TaskRow × L2BlockRow) (hq : q ∈ l) :
    (l.foldl pickSmaller a).1.block_id ≤ q.1.block_id := by
  induction l generalizing a with
  | nil => cases hq
  | cons y ys ih =>
    simp only [List.foldl_cons]
    rcases List.mem_cons.mp hq with h | h
    · subst h
      refine le_trans (foldl_pick_le_init ys (pickSmaller a q)) ?_
      unfold pickSmaller
      by_cases hc : q.1.block_id < a.1.block_id
      · rw [if_pos hc]
      · rw [if_neg hc]
        omega
    · exact ih (pickSmaller a y) h

theorem pickMinPair_mem {l : List (TaskRow × L2BlockRow)} {p : TaskRow × L2BlockRow}
    (h : pickMinPair l = some p) : p ∈ l := by
  cases l with
  | nil => cases h
  | cons x xs =>
    simp only [pickMinPair, Option.some.injEq] at h
    rw [← h]
    exact foldl_pick_mem xs x

theorem pickMinPair_le {l : List (TaskRow × L2BlockRow)} {p : TaskRow × L2BlockRow}
    (h : pickMinPair l = some p) :
    ∀ q ∈ l, p.1.block_id ≤ q.1.block_id := by
  cases l with
  | nil => cases h
  | cons x xs =>
    simp only [pickMinPair, Option.some.injEq] at h
    intro q hq
    rcases List.mem_cons.mp hq with h1 | h1
    · subst h1
      rw [← h]
      exact foldl_pick_le_init xs q
    · rw [← h]
      exact foldl_pick_le_mem x h1

theorem pickMinPair_none {l : List (TaskRow × L2BlockRow)}
    (h : pickMinPair l = none) : l = [] := by
  cases l with
  | nil => rfl
  | cons x xs => cases h

theorem mem_candidatePairs {db : Db} {start : Int} {t : TaskRow} {b : L2BlockRow} :
    (t, b) ∈ candidatePairs db start ↔
      t ∈ db.tasks ∧ b ∈ db.l2_blocks ∧ eligibleB db start t b = true := by
  unfold candidatePairs
  simp only [List.mem_flatMap, List.mem_map, List.mem_filter, Prod.mk.injEq]
  constructor
  · rintro ⟨t', ht', b', ⟨hb', he⟩, rfl, rfl⟩
    exact ⟨ht', hb', he⟩
  · rintro ⟨ht, hb, he⟩
    exact ⟨t, ht, b, ⟨hb, he⟩, rfl, rfl⟩

theorem eligibleB_iff {db : Db} {start : Int} {t : TaskRow} {b : L2BlockRow} :
    eligibleB db start t b = true ↔
      t.block_id = b.block_id ∧ t.block_id < ceiling db ∧ start < t.block_id ∧
      t.status = "proved" ∧ b.status = "uncommited" := by
  simp [eligibleB, and_assoc]

theorem selectLatestRow_spec {db : Db} {start : Int} {task : Task}
    (h : selectLatestRow db start = some task) :
    ∃ t b, (t, b) ∈ candidatePairs db start ∧ task = rowToTask t b ∧
      ∀ q ∈ candidatePairs db start, t.block_id ≤ q.1.block_id := by
  unfold selectLatestRow at h
  cases hp : pickMinPair (candidatePairs db start) with
  | none =>
    rw [hp] at h
    cases h
  | some p =>
    obtain ⟨t, b⟩ := p
    rw [hp] at h
    simp only [Option.map_some', Option.some.injEq] at h
    exact ⟨t, b, pickMinPair_mem hp, h.symm, pickMinPair_le hp⟩

/-! Helper lemmas about the transform. -/

theorem tryFrom_ok {parse : List Nat → Except String (List Nat)} {t : Task}
    {a : SubmitBlockArgs} (h : tryFrom parse t = some (.ok a)) :
    0 ≤ t.block_id ∧ a.block_id = t.block_id.toNat ∧
      depositAux t.aux_data = .ok a.deposit_aux := by
  unfold tryFrom at h
  cases hpi : parse t.public_input with
  | error e =>
    rw [hpi] at h
    simp at h
  | ok pi =>
    rw [hpi] at h
    cases hpr : parse t.proof with
    | error e =>
      rw [hpr] at h
      simp at h
    | ok pr =>
      rw [hpr] at h
      cases hu : u256FromI64 t.block_id with
      | none =>
        rw [hu] at h
        simp at h
      | some bid =>
        rw [hu] at h
        cases hd : depositAux t.aux_data with
        | error e =>
          rw [hd] at h
          simp at h
        | ok dep =>
          rw [hd] at h
          simp only [Option.some.injEq, Except.ok.injEq] at h
          unfold u256FromI64 at hu
          by_cases h0 : 0 ≤ t.block_id
          · rw [if_pos h0] at hu
            injection hu with hu
            refine ⟨h0, ?_, ?_⟩
            · rw [← h, ← hu]
            · rw [← h]
          · rw [if_neg h0] at hu
            cases hu

theorem tryFrom_fields {parse : List Nat → Except String (List Nat)} {t : Task}
    {pi pr dep : List Nat} (hpi : parse t.public_input = .ok pi)
    (hpr : parse t.proof = .ok pr) (h0 : 0 ≤ t.block_id)
    (hd : depositAux t.aux_data = .ok dep) :
    tryFrom parse t = some (.ok
      { block_id := t.block_id.toNat, public_inputs := pi,
        serialized_proof := pr, public_data := t.public_data,
        deposit_aux := dep }) := by
  unfold tryFrom
  rw [hpi, hpr, hd]
  unfold u256FromI64
  rw [if_pos h0]

theorem tryFrom_isSome {parse : List Nat → Except String (List Nat)} {t : Task}
    (h0 : 0 ≤ t.block_id) : (tryFrom parse t).isSome = true := by
  unfold tryFrom
  cases hpi : parse t.public_input with
  | error e => rfl
  | ok pi =>
    cases hpr : parse t.proof with
    | error e => rfl
    | ok pr =>
      unfold u256FromI64
      rw [if_pos h0]
      cases hd : depositAux t.aux_data with
      | error e => rfl
      | ok dep => rfl

theorem tryFrom_panic {parse : List Nat → Except String (List Nat)} {t : Task}
    {pi pr : List Nat} (hpi : parse t.public_input = .ok pi)
    (hpr : parse t.proof = .ok pr) (h0 : t.block_id < 0) :
    tryFrom parse t = none := by
  unfold tryFrom
  rw [hpi, hpr]
  unfold u256FromI64
  rw [if_neg (by omega)]

theorem tryFrom_error_of_depositAux {parse : List Nat → Except String (List Nat)}
    {t : Task} {pi pr : List Nat} {msg : String}
    (hpi : parse t.public_input = .ok pi) (hpr : parse t.proof = .ok pr)
    (h0 : 0 ≤ t.block_id) (hd : depositAux t.aux_data = .error msg) :
    tryFrom parse t = some (.error msg) := by
  unfold tryFrom
  rw [hpi, hpr]
  unfold u256FromI64
  rw [if_pos h0, hd]

/-! Helper lemmas about the encoding loop. -/

theorem encodeDepositArr_map_num {l : List Int}
    (hl : ∀ n ∈ l, 0 ≤ n ∧ n < 2 ^ 64) :
    encodeDepositArr (l.map Json.num) =
      .ok (l.flatMap (fun n => be2 (n.toNat % 65536))) := by
  induction l with
  | nil => rfl
  | cons x xs ih =>
    obtain ⟨hx0, hx64⟩ := hl x (List.mem_cons_self x xs)
    have hxs := fun n hn => hl n (List.mem_cons_of_mem x hn)
    simp only [List.map_cons, encodeDepositArr, jsonAsU64]
    rw [if_pos ⟨hx0, hx64⟩, ih hxs]
    rfl

theorem encodeDepositArr_cons (i : Json) (rest : List Json) :
    encodeDepositArr (i :: rest) = (match jsonAsU64 i with
      | none => .error "malform in deposit arr"
      | some ni =>
        match encodeDepositArr rest with
        | .error e => .error e
        | .ok tail => .ok (be2 (u16OfU64 ni) ++ tail)) := rfl

theorem encodeDepositArr_error_of_bad {ds : List Json} {e : Json}
    (he : e ∈ ds) (hbad : jsonAsU64 e = none) :
    ∃ msg, encodeDepositArr ds = .error msg := by
  induction ds with
  | nil => cases he
  | cons x xs ih =>
    rcases List.mem_cons.mp he with h | h
    · subst h
      refine ⟨"malform in deposit arr", ?_⟩
      simp only [encodeDepositArr, hbad]
    · cases hx : jsonAsU64 x with
      | none => exact ⟨"malform in deposit arr", by simp only [encodeDepositArr, hx]⟩
      | some nx =>
        obtain ⟨msg, hmsg⟩ := ih h
        refine ⟨msg, ?_⟩
        simp only [encodeDepositArr, hx, hmsg]

/-- The decoder of the round-trip property: split a byte sequence into
consecutive big-endian 2-byte words (a leftover odd byte is dropped). -/
def decodeBe2 : List Nat → List Nat
  | b1 :: b2 :: rest => (b1 * 256 + b2) :: decodeBe2 rest
  | _ => []

/-! Helper lemmas about one fetch cycle. -/

theorem run_inner_cases {parse : List Nat → Except String (List Nat)}
    {sendOk : Bool} {db : Db} {s s' : Option Int}
    {res : Except String (Option ContractCall)}
    (h : run_inner parse sendOk db s = some (s', res)) :
    ((∃ e, res = .error e) → s' = s) ∧
      (∀ c, res = .ok (some c) → sendOk = true ∧
        ∃ a v, c = .SubmitBlock a ∧ u256AsU64 a.block_id = some v ∧
          s' = some (u64AsI64 v) ∧
          fetch_latest parse s db = some (.ok (some a))) := by
  unfold run_inner at h
  cases hf : fetch_latest parse s db with
  | none =>
    rw [hf] at h
    cases h
  | some r =>
    rw [hf] at h
    cases r with
    | error e =>
      simp only [Option.some.injEq, Prod.mk.injEq] at h
      obtain ⟨h1, h2⟩ := h
      refine ⟨fun _ => h1.symm, fun c hc => ?_⟩
      rw [← h2] at hc
      cases hc
    | ok o =>
      cases o with
      | none =>
        simp only [Option.some.injEq, Prod.mk.injEq] at h
        obtain ⟨h1, h2⟩ := h
        refine ⟨fun _ => h1.symm, fun c hc => ?_⟩
        rw [← h2] at hc
        cases hc
      | some args =>
        have h2 : (match u256AsU64 args.block_id with
            | none => none
            | some v =>
              if sendOk = true then
                some (some (u64AsI64 v), Except.ok (some (ContractCall.SubmitBlock args)))
              else some (s, Except.error "sending on a full channel")) =
            some (s', res) := h
        clear h
        cases hv : u256AsU64 args.block_id with
        | none =>
          rw [hv] at h2
          cases h2
        | some v =>
          rw [hv] at h2
          rename' h2 => h
          cases sendOk with
          | false =>
            simp only [Bool.false_eq_true, if_false, Option.some.injEq,
              Prod.mk.injEq] at h
            obtain ⟨h1, h2⟩ := h
            refine ⟨fun _ => h1.symm, fun c hc => ?_⟩
            rw [← h2] at hc
            cases hc
          | true =>
            simp only [if_true, Option.some.injEq, Prod.mk.injEq] at h
            obtain ⟨h1, h2⟩ := h
            refine ⟨fun he => ?_, fun c hc => ?_⟩
            · obtain ⟨e, he⟩ := he
              rw [← h2] at he
              cases he
            · rw [← h2] at hc
              injection hc with hc
              injection hc with hc
              exact ⟨rfl, args, v, hc.symm, hv, h1.symm, rfl⟩

theorem depositAux_doc {o : Option Json} {j : Json} {ds : List Json}
    (hj : o = some j) (hdep : jsonGet j "deposit" = some (.arr ds)) :
    depositAux o = encodeDepositArr ds := by
  rw [hj]
  simp only [depositAux]
  rw [hdep]
  rfl

theorem flatMap_be2_of_le {l : List Int} (hl : ∀ n ∈ l, 0 ≤ n ∧ n ≤ 65535) :
    l.flatMap (fun n => be2 (n.toNat % 65536)) =
      l.flatMap (fun n => [n.toNat / 256, n.toNat % 256]) := by
  induction l with
  | nil => rfl
  | cons x xs ih =>
    obtain ⟨hx0, hx1⟩ := hl x (List.mem_cons_self x xs)
    have hmod : x.toNat % 65536 = x.toNat := Nat.mod_eq_of_lt (by omega)
    simp only [List.flatMap_cons]
    rw [ih (fun n hn => hl n (List.mem_cons_of_mem x hn)), hmod]
    rfl

theorem fetch_latest_ok_some {parse : List Nat → Except String (List Nat)}
    {s : Option Int} {db : Db} {a : SubmitBlockArgs}
    (hf : fetch_latest parse s db = some (.ok (some a))) :
    ∃ task, selectLatestRow db (s.getD (-1)) = some task ∧
      tryFrom parse task = some (.ok a) := by
  unfold fetch_latest at hf
  cases hsel : selectLatestRow db (s.getD (-1)) with
  | none =>
    rw [hsel] at hf
    simp at hf
  | some task =>
    rw [hsel] at hf
    have hf2 : (match tryFrom parse task with
        | none => none
        | some (Except.error e) => some (Except.error e)
        | some (Except.ok args) => some (Except.ok (some args))) =
        some (Except.ok (some a)) := hf
    clear hf
    cases htf : tryFrom parse task with
    | none =>
      rw [htf] at hf2
      cases hf2
    | some r =>
      rw [htf] at hf2
      cases r with
      | error e => cases hf2
      | ok a2 =>
        simp at hf2
        exact ⟨task, rfl, by rw [htf, hf2]⟩

theorem run_inner_success {parse : List Nat → Except String (List Nat)}
    {db : Db} {s s' : Option Int} {a : SubmitBlockArgs} (hwf : db.wf)
    (h : run_inner parse true db s = some (s', .ok (some (.SubmitBlock a)))) :
    s' = some (a.block_id : Int) ∧ s.getD (-1) < (a.block_id : Int) ∧
      ∀ q ∈ candidatePairs db (s.getD (-1)), (a.block_id : Int) ≤ q.1.block_id := by
  obtain ⟨-, hres⟩ := run_inner_cases h
  obtain ⟨-, a', v, hca, hv, hs', hf⟩ := hres (.SubmitBlock a) rfl
  injection hca with hca
  subst hca
  obtain ⟨task, hsel, hok⟩ := fetch_latest_ok_some hf
  obtain ⟨t, b, hmem, htask, hmin⟩ := selectLatestRow_spec hsel
  obtain ⟨h0, hbid, -⟩ := tryFrom_ok hok
  obtain ⟨hjoin, hceil, hgt, hst, hbs⟩ :=
    eligibleB_iff.mp (mem_candidatePairs.mp hmem).2.2
  have htb : task.block_id = t.block_id := by
    rw [htask]
    rfl
  have hlt : t.block_id < 2 ^ 63 := hwf t (mem_candidatePairs.mp hmem).1
  have hv' : v = a.block_id := by
    unfold u256AsU64 at hv
    by_cases hc : a.block_id < 2 ^ 64
    · rw [if_pos hc] at hv
      injection hv with hv
      exact hv.symm
    · rw [if_neg hc] at hv
      cases hv
  have hvlt : v < 2 ^ 63 := by omega
  have hcast : (a.block_id : Int) = t.block_id := by omega
  refine ⟨?_, by omega, ?_⟩
  · rw [hs']
    congr 1
    unfold u64AsI64
    rw [if_pos hvlt]
    omega
  · intro q hq
    have := hmin q hq
    omega

-- more scratch checks
example : scenarioADb.wf := by
  unfold Db.wf
  decide
example : ceiling scenarioADb = 3 := by decide

/-- The aux document of scenario B: deposit list `[1, 65535, 0]`. -/
def auxDocB : Json := .obj [("deposit", .arr [.num 1, .num 65535, .num 0])]

/-- A fetched row carrying the scenario B aux document. -/
def taskScenarioB : Task :=
  { block_id := 9, public_input := emptyJsonArr, proof := emptyJsonArr,
    public_data := [], aux_data := some auxDocB }

/-- The transform output on `task70000`: the element 70000 is truncated
`as u16` to 4464 = 0x1170, hence the bytes 0x11 0x70. -/
def args70000 : SubmitBlockArgs :=
  { block_id := 5, public_inputs := [], serialized_proof := [],
    public_data := [], deposit_aux := [17, 112] }

/-! The claims. -/

/-- Claim C1, counterexample: on the scenario D row, whose aux document
has deposit list `[70000]` with 70000 outside the 16-bit range, the
transform does not fail: it succeeds, and no `MalformedAuxData` error is
produced (the element is truncated to the bytes 0x11 0x70). -/
theorem c1_counterexample :
    tryFrom parseE task70000 = some (.ok args70000) ∧
      ∀ e : String, tryFrom parseE task70000 ≠ some (.error e) := by
  have hok : tryFrom parseE task70000 = some (.ok args70000) := by decide
  refine ⟨hok, fun e he => ?_⟩
  rw [hok] at he
  exact Except.noConfusion (Option.some.inj he)

/-- Claim C1, amended: if the deposit array of the selected row contains
an element that is not representable as a non-negative 64-bit integer,
the cycle fails with the malformed-aux-data error and the cursor is left
unchanged, so the same block is re-attempted on the next cycle; an
element outside the 16-bit range that still fits in 64 bits does not
fail (it is truncated, see C8). -/
theorem c1_amended (parse : List Nat → Except String (List Nat))
    (sendOk : Bool) (db : Db) (s : Option Int) (t : TaskRow) (b : L2BlockRow)
    (j : Json) (ds : List Json) (e : Json) (pi pr : List Nat)
    (hsel : pickMinPair (candidatePairs db (s.getD (-1))) = some (t, b))
    (haux : b.public_data_aux = some j)
    (hdep : jsonGet j "deposit" = some (.arr ds))
    (he : e ∈ ds) (hbad : jsonAsU64 e = none)
    (hpi : parse t.public_input = .ok pi) (hpr : parse t.proof = .ok pr)
    (h0 : 0 ≤ t.block_id) :
    ∃ msg, run_inner parse sendOk db s = some (s, .error msg) := by
  obtain ⟨msg, hmsg⟩ := encodeDepositArr_error_of_bad he hbad
  have hd : depositAux (rowToTask t b).aux_data = .error msg :=
    (depositAux_doc haux hdep).trans hmsg
  have htf : tryFrom parse (rowToTask t b) = some (.error msg) :=
    tryFrom_error_of_depositAux hpi hpr h0 hd
  have hfe : fetch_latest parse s db = some (.error msg) := by
    unfold fetch_latest selectLatestRow
    rw [hsel]
    simp only [Option.map_some']
    rw [htf]
  refine ⟨msg, ?_⟩
  unfold run_inner
  rw [hfe]

/-- Claim C1, witness for the amended claim: a database whose single
eligible block carries deposit list `[-1]` makes the cycle fail and
leaves the absent cursor absent. -/
theorem c1_amended_witness :
    ∃ msg, run_inner parseE true dbBadAux none = some (none, .error msg) :=
  c1_amended parseE true dbBadAux none (mkTaskRow 7 "proved")
    { block_id := 7, status := "uncommited", raw_public_data := [],
      public_data_aux := some auxDocNeg }
    auxDocNeg [.num (-1)] (.num (-1)) [] []
    rfl rfl rfl (List.mem_cons_self _ _) rfl rfl rfl (by decide)

/-- Claim C6: for every present aux document whose deposit field is a
sequence of integers in the 16-bit range, the transform succeeds and the
produced deposit_aux is the concatenation, in input order, of the two
big-endian bytes of each element. -/
theorem c6_deposit_encoding (parse : List Nat → Except String (List Nat))
    (t : Task) (pi pr : List Nat) (j : Json) (l : List Int)
    (hpi : parse t.public_input = .ok pi) (hpr : parse t.proof = .ok pr)
    (h0 : 0 ≤ t.block_id) (hj : t.aux_data = some j)
    (hdep : jsonGet j "deposit" = some (.arr (l.map Json.num)))
    (hl : ∀ n ∈ l, 0 ≤ n ∧ n ≤ 65535) :
    ∃ args, tryFrom parse t = some (.ok args) ∧
      args.deposit_aux = l.flatMap (fun n => [n.toNat / 256, n.toNat % 256]) := by
  have hl64 : ∀ n ∈ l, 0 ≤ n ∧ n < 2 ^ 64 := by
    intro n hn
    obtain ⟨h1, h2⟩ := hl n hn
    exact ⟨h1, by omega⟩
  have hd : depositAux t.aux_data =
      .ok (l.flatMap (fun n => be2 (n.toNat % 65536))) :=
    (depositAux_doc hj hdep).trans (encodeDepositArr_map_num hl64)
  refine ⟨_, tryFrom_fields hpi hpr h0 hd, ?_⟩
  exact flatMap_be2_of_le hl

/-- Claim C6, witness (scenario B): deposit list `[1, 65535, 0]` encodes
to the bytes 00 01 FF FF 00 00. -/
theorem c6_deposit_encoding_witness :
    ∃ args, tryFrom parseE taskScenarioB = some (.ok args) ∧
      args.deposit_aux = [0, 1, 255, 255, 0, 0] := by
  obtain ⟨args, h1, h2⟩ := c6_deposit_encoding parseE taskScenarioB [] []
    auxDocB [1, 65535, 0] (by decide) (by decide) (by decide) rfl rfl (by decide)
  refine ⟨args, h1, ?_⟩
  rw [h2]
  rfl

/-- Claim C7: encoding any sequence of 16-bit integers and splitting the
byte output back into consecutive big-endian 2-byte words recovers the
original sequence, and the output length is twice the input length. -/
theorem c7_roundtrip (l : List Nat) (hl : ∀ n ∈ l, n ≤ 65535) :
    ∃ bs, encodeDepositArr (l.map (fun (n : Nat) => Json.num (n : Int))) = .ok bs ∧
      decodeBe2 bs = l ∧ bs.length = 2 * l.length := by
  induction l with
  | nil => exact ⟨[], rfl, rfl, rfl⟩
  | cons x xs ih =>
    obtain ⟨bs, hbs, hdec, hlen⟩ := ih (fun n hn => hl n (List.mem_cons_of_mem x hn))
    have hx : x ≤ 65535 := hl x (List.mem_cons_self x xs)
    have hnum : jsonAsU64 (Json.num (x : Int)) = some x := by
      simp only [jsonAsU64]
      rw [if_pos ⟨by omega, by omega⟩]
      rw [Int.toNat_natCast]
    refine ⟨be2 (u16OfU64 x) ++ bs, ?_, ?_, ?_⟩
    · rw [List.map_cons, encodeDepositArr_cons, hnum, hbs]
    · have hmod : u16OfU64 x = x := Nat.mod_eq_of_lt (by omega)
      rw [hmod]
      show decodeBe2 (x / 256 :: x % 256 :: bs) = x :: xs
      unfold decodeBe2
      rw [hdec]
      simp only [List.cons.injEq]
      exact ⟨by omega, trivial⟩
    · simp only [List.length_append, be2, u16OfU64, List.length_cons,
        List.length_nil]
      omega

/-- Claim C7, witness: the round trip on `[1, 65535, 0]`. -/
theorem c7_roundtrip_witness :
    ∃ bs, encodeDepositArr (([1, 65535, 0] : List Nat).map
        (fun (n : Nat) => Json.num (n : Int))) = .ok bs ∧
      decodeBe2 bs = [1, 65535, 0] ∧ bs.length = 2 * ([1, 65535, 0] : List Nat).length :=
  c7_roundtrip [1, 65535, 0] (by decide)

/-- Claim C8: a deposit element representable as an unsigned 64-bit
integer but greater than 65535 does not make the transform fail: every
element is reduced modulo 65536 and encoded as its two big-endian
bytes. -/
theorem c8_truncation (parse : List Nat → Except String (List Nat))
    (t : Task) (pi pr : List Nat) (j : Json) (l : List Int)
    (hpi : parse t.public_input = .ok pi) (hpr : parse t.proof = .ok pr)
    (h0 : 0 ≤ t.block_id) (hj : t.aux_data = some j)
    (hdep : jsonGet j "deposit" = some (.arr (l.map Json.num)))
    (hl : ∀ n ∈ l, 0 ≤ n ∧ n < 2 ^ 64) (_hbig : ∃ n ∈ l, 65535 < n) :
    ∃ args, tryFrom parse t = some (.ok args) ∧
      args.deposit_aux =
        l.flatMap (fun n => [n.toNat % 65536 / 256, n.toNat % 65536 % 256]) := by
  have hd : depositAux t.aux_data =
      .ok (l.flatMap (fun n => be2 (n.toNat % 65536))) :=
    (depositAux_doc hj hdep).trans (encodeDepositArr_map_num hl)
  exact ⟨_, tryFrom_fields hpi hpr h0 hd, rfl⟩

/-- Claim C8, witness: 70000 is accepted and encoded as 0x11 0x70. -/
theorem c8_truncation_witness :
    ∃ args, tryFrom parseE task70000 = some (.ok args) ∧
      args.deposit_aux = ([70000] : List Int).flatMap
        (fun n => [n.toNat % 65536 / 256, n.toNat % 65536 % 256]) :=
  c8_truncation parseE task70000 [] [] auxDoc70000 [70000]
    (by decide) (by decide) (by decide) rfl rfl (by decide)
    ⟨70000, List.mem_cons_self _ _, by decide⟩

/-- Claim C9: in the supervisor race, a returning fetch loop or
submission-actor loop terminates the process abnormally with a
descriptive fault, while the cancellation signal leads to a clean
successful exit. -/
theorem c9_supervisor :
    mainSelect .fetcherReturned =
      .panicked "Tele_out task fetcher actor is not supposed to finish its execution" ∧
    mainSelect .ethSenderReturned =
      .panicked "Ethereum Sender actor is not supposed to finish its execution" ∧
    mainSelect .stopSignal = .exitedOk :=
  ⟨rfl, rfl, rfl⟩

/-- Claim C10: the transform never panics when the row's block_id is
non-negative; the `U256::from` conversion itself panics (returns no
value) exactly on negative input, and with well-formed payload parses a
negative block_id makes the whole transform panic rather than return an
error. -/
theorem c10_totality :
    (∀ (parse : List Nat → Except String (List Nat)) (t : Task),
        0 ≤ t.block_id → (tryFrom parse t).isSome = true) ∧
    (∀ (parse : List Nat → Except String (List Nat)) (t : Task) (pi pr : List Nat),
        parse t.public_input = .ok pi → parse t.proof = .ok pr →
        t.block_id < 0 → tryFrom parse t = none) ∧
    (∀ x : Int, x < 0 → u256FromI64 x = none) := by
  refine ⟨fun _ _ h0 => tryFrom_isSome h0,
    fun _ _ _ _ hpi hpr h0 => tryFrom_panic hpi hpr h0, fun x hx => ?_⟩
  unfold u256FromI64
  rw [if_neg (by omega)]

/-- A fetched row with block id 0 and no aux document. -/
def taskZero : Task :=
  { block_id := 0, public_input := emptyJsonArr, proof := emptyJsonArr,
    public_data := [], aux_data := none }

/-- A fetched row with the negative block id -3 and no aux document. -/
def taskNeg3 : Task :=
  { block_id := -3, public_input := emptyJsonArr, proof := emptyJsonArr,
    public_data := [], aux_data := none }

/-- Claim C10, witness: block 0 converts, block -3 panics. -/
theorem c10_totality_witness :
    (tryFrom parseE taskZero).isSome = true ∧ tryFrom parseE taskNeg3 = none :=
  ⟨c10_totality.1 parseE taskZero (by decide),
   c10_totality.2.1 parseE taskNeg3 [] [] (by decide) (by decide) (by decide)⟩

/-- Claim C2: a row returned by fetch_latest always has a block_id
strictly below every proof record whose status is not proved (the
ceiling); in scenario A (ids 1, 2, 4 proved, id 3 not proved, blocks
1-4 uncommitted) successive cycles dispatch id 1, then id 2, then
nothing. -/
theorem c2_ceiling_invariant :
    (∀ (parse : List Nat → Except String (List Nat)) (start : Option Int)
        (db : Db) (args : SubmitBlockArgs),
        fetch_latest parse start db = some (.ok (some args)) →
        ∀ t2 ∈ db.tasks, t2.status ≠ "proved" →
          (args.block_id : Int) < t2.block_id) ∧
    run_inner parseE true scenarioADb none =
      some (some 1, .ok (some (.SubmitBlock (mkArgs 1)))) ∧
    run_inner parseE true scenarioADb (some 1) =
      some (some 2, .ok (some (.SubmitBlock (mkArgs 2)))) ∧
    run_inner parseE true scenarioADb (some 2) = some (some 2, .ok none) := by
  refine ⟨?_, by decide, by decide, by decide⟩
  intro parse start db args hf t2 ht2 hstat
  obtain ⟨task, hsel, hok⟩ := fetch_latest_ok_some hf
  obtain ⟨t, b, hmem, htask, -⟩ := selectLatestRow_spec hsel
  obtain ⟨h0, hbid, -⟩ := tryFrom_ok hok
  obtain ⟨-, hceil, -, -, -⟩ :=
    eligibleB_iff.mp (mem_candidatePairs.mp hmem).2.2
  have hle := ceiling_le ht2 hstat
  have htb : task.block_id = t.block_id := by
    rw [htask]
    rfl
  omega

/-- Claim C2, witness: in scenario A, the first fetched block (id 1) is
strictly below the unproven task id 3. -/
theorem c2_ceiling_invariant_witness :
    ((mkArgs 1).block_id : Int) < (mkTaskRow 3 "proving").block_id :=
  c2_ceiling_invariant.1 parseE none scenarioADb (mkArgs 1) (by decide)
    (mkTaskRow 3 "proving")
    (List.mem_cons_of_mem _ (List.mem_cons_of_mem _ (List.mem_cons_self _ _)))
    (by decide)

/-- Claim C3: a cycle that ends in an error — transform failure or a
failed channel send — leaves the cursor at its pre-cycle value; the
cursor is set to the dispatched block id only when the send succeeded. -/
theorem c3_cursor_stability (parse : List Nat → Except String (List Nat))
    (sendOk : Bool) (db : Db) (s s' : Option Int)
    (res : Except String (Option ContractCall))
    (h : run_inner parse sendOk db s = some (s', res)) :
    ((∃ e, res = .error e) → s' = s) ∧
      (∀ c, res = .ok (some c) → sendOk = true ∧
        ∃ a, c = .SubmitBlock a ∧ ∃ v, u256AsU64 a.block_id = some v ∧
          s' = some (u64AsI64 v)) := by
  obtain ⟨h1, h2⟩ := run_inner_cases h
  refine ⟨h1, fun c hc => ?_⟩
  obtain ⟨hs, a, v, hca, hv, hs', -⟩ := h2 c hc
  exact ⟨hs, a, hca, v, hv, hs'⟩

/-- Claim C3, witness: in scenario A with a full channel the cycle
fails and the absent cursor stays absent. -/
theorem c3_cursor_stability_witness : (none : Option Int) = none :=
  (c3_cursor_stability parseE false scenarioADb none none
      (.error "sending on a full channel") (by decide)).1
    ⟨"sending on a full channel", rfl⟩

/-- Claim C4: a successful cycle dispatches the eligible row with the
least block_id above the cursor and sets the cursor to that id, so two
successive successful cycles dispatch strictly ascending block ids. -/
theorem c4_ordering (parse : List Nat → Except String (List Nat))
    (db1 db2 : Db) (s0 s1 s2 : Option Int) (a1 a2 : SubmitBlockArgs)
    (hwf1 : db1.wf) (hwf2 : db2.wf)
    (h1 : run_inner parse true db1 s0 = some (s1, .ok (some (.SubmitBlock a1))))
    (h2 : run_inner parse true db2 s1 = some (s2, .ok (some (.SubmitBlock a2)))) :
    s1 = some (a1.block_id : Int) ∧ s2 = some (a2.block_id : Int) ∧
      (a1.block_id : Int) < (a2.block_id : Int) ∧
      (∀ v, s0 = some v → v < (a1.block_id : Int)) ∧
      (∀ q ∈ candidatePairs db1 (s0.getD (-1)),
        (a1.block_id : Int) ≤ q.1.block_id) := by
  obtain ⟨hs1, hgt1, hmin1⟩ := run_inner_success hwf1 h1
  obtain ⟨hs2, hgt2, -⟩ := run_inner_success hwf2 h2
  refine ⟨hs1, hs2, ?_, ?_, hmin1⟩
  · rw [hs1] at hgt2
    exact hgt2
  · intro v hv
    rw [hv] at hgt1
    exact hgt1

/-- Claim C4, witness: in scenario A, cycle one dispatches block 1 and
cycle two dispatches block 2, in ascending order. -/
theorem c4_ordering_witness :
    (some 1 : Option Int) = some ((mkArgs 1).block_id : Int) ∧
    (some 2 : Option Int) = some ((mkArgs 2).block_id : Int) ∧
    ((mkArgs 1).block_id : Int) < ((mkArgs 2).block_id : Int) ∧
    (∀ v : Int, (none : Option Int) = some v → v < ((mkArgs 1).block_id : Int)) ∧
    (∀ q ∈ candidatePairs scenarioADb ((none : Option Int).getD (-1)),
      ((mkArgs 1).block_id : Int) ≤ q.1.block_id) :=
  c4_ordering parseE scenarioADb scenarioADb none (some 1) (some 2)
    (mkArgs 1) (mkArgs 2)
    (by unfold Db.wf; decide) (by unfold Db.wf; decide) (by decide) (by decide)

/-- Claim C5, counterexample: a database whose single block has the
representable identifier -1, is proved, uncommitted and below the
ceiling — i.e. eligible in every respect the claim lists — is still not
a candidate on the first cycle, because an absent cursor is bound as -1
rather than leaving the selection unconstrained. -/
theorem c5_counterexample :
    fetch_latest parseE none dbNegId = some (.ok none) ∧
      mkTaskRow (-1) "proved" ∈ dbNegId.tasks ∧
      mkL2Row (-1) "uncommited" ∈ dbNegId.l2_blocks ∧
      (mkTaskRow (-1) "proved").status = "proved" ∧
      (mkL2Row (-1) "uncommited").status = "uncommited" ∧
      (mkTaskRow (-1) "proved").block_id < ceiling dbNegId ∧
      (mkTaskRow (-1) "proved").block_id = (mkL2Row (-1) "uncommited").block_id :=
  ⟨by decide, List.mem_cons_self _ _, List.mem_cons_self _ _, rfl, rfl,
    by decide, rfl⟩

/-- Claim C5, amended: an absent cursor is equivalent to a cursor of -1:
the first cycle places no lower bound on eligible blocks with
non-negative block_id (every such block is a candidate), but blocks with
negative block_id are excluded. -/
theorem c5_amended :
    (∀ (parse : List Nat → Except String (List Nat)) (db : Db),
        fetch_latest parse none db = fetch_latest parse (some (-1)) db) ∧
    (∀ (db : Db) (t : TaskRow) (b : L2BlockRow),
        t ∈ db.tasks → b ∈ db.l2_blocks → t.block_id = b.block_id →
        t.block_id < ceiling db → t.status = "proved" →
        b.status = "uncommited" → 0 ≤ t.block_id →
        (t, b) ∈ candidatePairs db (-1)) := by
  refine ⟨fun parse db => rfl, ?_⟩
  intro db t b ht hb hjoin hceil hst hbs h0
  exact mem_candidatePairs.mpr
    ⟨ht, hb, eligibleB_iff.mpr ⟨hjoin, hceil, by omega, hst, hbs⟩⟩

/-- Claim C5, witness for the amended claim: block 1 of scenario A is a
candidate on the first cycle. -/
theorem c5_amended_witness :
    (mkTaskRow 1 "proved", mkL2Row 1 "uncommited") ∈
      candidatePairs scenarioADb (-1) :=
  c5_amended.2 scenarioADb (mkTaskRow 1 "proved") (mkL2Row 1 "uncommited")
    (List.mem_cons_self _ _) (List.mem_cons_self _ _) rfl (by decide)
    rfl rfl (by decide)

end RegnbueBridge
